import Mathlib

/-!
Shallow embedding of the reggy query server (`query.py`) and summary
server (`summarize.py`).

Python dicts are embedded as association lists in insertion order: a new
key is appended at the end, `in` is `lookupA ... ≠ none`, `del` removes
the entry, and mutating a value rewrites the entry in place.  The
cryptographic primitives `sign`, `verify` and the serializer
`json.dumps` are external capabilities and appear as function
parameters.
-/

namespace Reggy

/-- Association-list lookup, mirroring Python `d[k]` / `k in d`
(first entry with the key wins; the stores only ever hold one entry per
key). -/
def lookupA {α : Type} : List (String × α) → String → Option α
  | [], _ => none
  | p :: rest, k => if p.1 = k then some p.2 else lookupA rest k

/-! ## summarize.py -/

/-- A decrypted result line: a dict from field name to value
(`registry_data` in `create_summary`). -/
abbrev Line := List (String × String)

/-- The nested tally dict built by `create_summary`: field ↦ value ↦ count. -/
abbrev Summary := List (String × List (String × Nat))

/-- The inner-dict part of one `create_summary` loop iteration:
`if value not in results[key]: results[key][value] = 0` followed by
`results[key][value] += 1`. -/
def bumpInner (inner : List (String × Nat)) (value : String) : List (String × Nat) :=
  (if (lookupA inner value).isNone then inner ++ [(value, 0)] else inner).map
    (fun q => if q.1 = value then (q.1, q.2 + 1) else q)

/-- One iteration of the inner loop body of `create_summary`:
`if key not in results: results[key] = {}` followed by `bumpInner` on
`results[key]`. -/
def bump (results : Summary) (key value : String) : Summary :=
  (if (lookupA results key).isNone then results ++ [(key, [])] else results).map
    (fun p => if p.1 = key then (p.1, bumpInner p.2 value) else p)

/-- `create_summary(data)` from summarize.py: three nested loops over
individuals, their per-source lines, and each line's (key, value) items. -/
def create_summary (data : List (List Line)) : Summary :=
  data.foldl
    (fun results individual_data =>
      individual_data.foldl
        (fun results registry_data =>
          registry_data.foldl (fun results kv => bump results kv.1 kv.2) results)
        results)
    []

/-- Reading a count out of an inner value dict, with 0 for absent keys. -/
def innerRead (inner : List (String × Nat)) (v : String) : Nat :=
  match lookupA inner v with
  | none => 0
  | some n => n

/-- Reading a count out of the nested tally, with 0 for absent keys. -/
def tallyCount (results : Summary) (f v : String) : Nat :=
  match lookupA results f with
  | none => 0
  | some inner => innerRead inner v

/-! ## query.py -/

/-- One entry of the JSON feed pulled from the web server:
`{id, status?, fields, sources}`.  `status` is the truthiness of
`query.get('status')`; `fields` is the structured payload, kept opaque. -/
structure FeedQuery where
  id : String
  status : Bool
  fields : String
  sources : List String
deriving DecidableEq, Repr

/-- A record of `signed_query_store`: the feed entry enriched with
`signed_by` and `signed` (lines 44-47 of query.py). -/
structure QueryRecord where
  fields : String
  sources : List String
  signed_by : List String
  signed : String
deriving DecidableEq, Repr

/-- The in-memory `signed_query_store` dict, in insertion order. -/
abbrev Store := List (String × QueryRecord)

/-- Request-scoped failures of `QueryHandler.handle`.  `keyError` is the
`KeyError` of `del signed_query_store[query_id]` on an absent id;
`unknownQuery` is the `KeyError` of `signed_query_store[query_id]` when
merging; `signatureInvalid` is the `ValueError` raised on a failed
verification; `configMissing` is the exception for a missing recipient
config. -/
inductive HandlerError where
  | keyError
  | configMissing
  | signatureInvalid
  | unknownQuery
deriving DecidableEq, Repr

/-- The loop body of `fetch_queries` for one feed entry (lines 42-50):
create-and-sign when unseen and status-free, delete on status (raising on
an absent id), otherwise leave the store alone.  `sign` and the
serializer `dumps` (`json.dumps`) are external capabilities. -/
def upsert (sign dumps : String → String) (store : Store) (q : FeedQuery) :
    Except HandlerError Store :=
  if !q.status && (lookupA store q.id).isNone then
    .ok (store ++ [(q.id, ⟨q.fields, q.sources, [], sign (dumps q.fields)⟩)])
  else if q.status then
    match lookupA store q.id with
    | some _ => .ok (store.filter (fun p => p.1 ≠ q.id))
    | none => .error .keyError
  else
    .ok store

/-- `fetch_queries(registry_id)`: run `upsert` over the whole feed.  The
store is global and mutated in place, so on an exception the effects of
the entries already processed persist: the function returns the store as
it stands together with the error, if any.  `registry_id` is the
(unused) argument of the Python function. -/
def fetch_run (sign dumps : String → String) (registry_id : String) :
    Store → List FeedQuery → Store × Option HandlerError
  | store, [] => (store, none)
  | store, q :: rest =>
    match upsert sign dumps store q with
    | .ok s₁ => fetch_run sign dumps registry_id s₁ rest
    | .error e => (store, some e)

/-- `filter_queries(registry_id)` (lines 53-59): the records whose
`sources` contain the registry, in store order. -/
def filter_queries (registry_id : String) (store : Store) : List QueryRecord :=
  (store.filter (fun p => p.2.sources.contains registry_id)).map (fun p => p.2)

/-- Lines 101-111 of `QueryHandler.handle` for a single returned entry
`(query_id, query)`: verify (raising `ValueError` on failure), then
append `source_id` to the record's `signed_by` and overwrite its
`signed` with the returned payload (raising `KeyError` when the id is
not in the store).  `verify` is the external capability. -/
def merge_one (verify : String → Bool) (source_id : String) (store : Store)
    (entry : String × String) : Except HandlerError Store :=
  if verify entry.2 then
    match lookupA store entry.1 with
    | some _ =>
      .ok (store.map (fun p =>
        if p.1 = entry.1 then
          (p.1, ⟨p.2.fields, p.2.sources, p.2.signed_by ++ [source_id], entry.2⟩)
        else p))
    | none => .error .unknownQuery
  else
    .error .signatureInvalid

/-- The whole merge loop over the returned batch (lines 101-111).  As
with `fetch_run`, the store is mutated in place entry by entry, so an
exception keeps the merges already applied: the result is the store at
the moment the loop stops, with the error, if any. -/
def merge_run (verify : String → Bool) (source_id : String) :
    Store → List (String × String) → Store × Option HandlerError
  | store, [] => (store, none)
  | store, e :: rest =>
    match merge_one verify source_id store e with
    | .ok s₁ => merge_run verify source_id s₁ rest
    | .error err => (store, some err)

/-- The hard-coded allow-list of line 73. -/
def valid_sources : List String := ["hunt", "cancer", "death"]

/-- Outcome of one `QueryHandler.handle` call: the store afterwards, the
filtered batch sent to the registry (None when nothing was sent), and
the error that aborted the request, if any. -/
structure HandleResult where
  store : Store
  response : Option (List QueryRecord)
  error : Option HandlerError
deriving DecidableEq, Repr

/-- `QueryHandler.handle` (lines 64-114): allow-list check, feed
refresh, filter-and-send, then verify-and-merge of the registry's reply.
`recipients` models the truthiness of `config.RECIPIENTS[source_id]`;
`feed` is the decoded feed body and `reply` the registry's decrypted
reply batch, in received order. -/
def handle (sign dumps : String → String) (verify : String → Bool)
    (recipients : String → Bool) (store : Store) (feed : List FeedQuery)
    (source_id : String) (reply : List (String × String)) : HandleResult :=
  if valid_sources.contains source_id then
    match fetch_run sign dumps source_id store feed with
    | (s₁, some e) => ⟨s₁, none, some e⟩
    | (s₁, none) =>
      if recipients source_id then
        match merge_run verify source_id s₁ reply with
        | (s₂, oe) => ⟨s₂, some (filter_queries source_id s₁), oe⟩
      else ⟨s₁, none, some .configMissing⟩
  else ⟨store, none, none⟩

end Reggy

namespace Reggy

/-! ## Lemmas about the tally -/

theorem lookupA_append_none {α : Type} {l₁ : List (String × α)} {k : String}
    (l₂ : List (String × α)) (h : lookupA l₁ k = none) :
    lookupA (l₁ ++ l₂) k = lookupA l₂ k := by
  induction l₁ with
  | nil => simp
  | cons p rest ih =>
    simp only [lookupA] at h
    by_cases hp : p.1 = k
    · rw [if_pos hp] at h; exact absurd h (by simp)
    · rw [if_neg hp] at h
      simp only [List.cons_append, lookupA, if_neg hp]
      exact ih h

theorem lookupA_append_some {α : Type} {l₁ : List (String × α)} {k : String} {a : α}
    (l₂ : List (String × α)) (h : lookupA l₁ k = some a) :
    lookupA (l₁ ++ l₂) k = some a := by
  induction l₁ with
  | nil => simp [lookupA] at h
  | cons p rest ih =>
    simp only [lookupA] at h
    by_cases hp : p.1 = k
    · rw [if_pos hp] at h
      simp only [List.cons_append, lookupA, if_pos hp]
      exact h
    · rw [if_neg hp] at h
      simp only [List.cons_append, lookupA, if_neg hp]
      exact ih h

theorem lookupA_map_if {α : Type} (l : List (String × α)) (k k' : String) (g : α → α) :
    lookupA (l.map (fun p => if p.1 = k then (p.1, g p.2) else p)) k' =
      if k' = k then (lookupA l k').map g else lookupA l k' := by
  induction l with
  | nil => by_cases h : k' = k <;> simp [lookupA, h]
  | cons p rest ih =>
    by_cases hp : p.1 = k
    · by_cases hk : k' = k
      · have hpk : p.1 = k' := by rw [hp, hk]
        simp [lookupA, hp, hk, hpk, ih]
      · have hpk : ¬ p.1 = k' := by rw [hp]; exact fun h => hk h.symm
        have hkk : ¬ k = k' := by rw [← hp]; exact hpk
        simp [lookupA, hp, hk, hpk, hkk, ih]
    · by_cases hpk : p.1 = k'
      · have hk : ¬ k' = k := by rw [← hpk]; exact fun h => hp h
        simp [lookupA, hp, hpk, hk]
      · simp [lookupA, hp, hpk, ih]

/-- Effect of `bumpInner` on an inner tally read (0 for absent). -/
theorem bumpInner_read (inner : List (String × Nat)) (value v : String) :
    innerRead (bumpInner inner value) v =
      innerRead inner v + (if v = value then 1 else 0) := by
  unfold bumpInner innerRead
  rw [lookupA_map_if _ value v (fun n => n + 1)]
  by_cases hv : v = value
  · rw [if_pos hv, if_pos hv]
    by_cases hin : (lookupA inner value).isNone
    · rw [if_pos hin]
      rw [Option.isNone_iff_eq_none] at hin
      have hin2 : lookupA inner v = none := by rw [hv]; exact hin
      have h2 : lookupA [(value, 0)] v = some 0 := by
        rw [← hv]
        simp [lookupA]
      rw [lookupA_append_none _ hin2, h2, hin2]
      simp
    · rw [if_neg hin]
      match hres : lookupA inner v with
      | none =>
        rw [hv] at hres
        rw [hres] at hin
        simp at hin
      | some n => simp
  · rw [if_neg hv, if_neg hv]
    by_cases hin : (lookupA inner value).isNone
    · rw [if_pos hin]
      match hres : lookupA inner v with
      | none =>
        have hvv : ¬ value = v := fun h => hv h.symm
        rw [lookupA_append_none _ hres]
        simp [lookupA, hvv]
      | some n =>
        rw [lookupA_append_some _ hres]
        simp
    · rw [if_neg hin]
      simp

/-- Effect of one `bump` on a tally read. -/
theorem tallyCount_bump (results : Summary) (key value f v : String) :
    tallyCount (bump results key value) f v =
      tallyCount results f v + (if f = key ∧ v = value then 1 else 0) := by
  unfold bump tallyCount
  rw [lookupA_map_if _ key f (fun inner => bumpInner inner value)]
  by_cases hf : f = key
  · rw [if_pos hf]
    by_cases hout : (lookupA results key).isNone
    · rw [if_pos hout]
      rw [Option.isNone_iff_eq_none] at hout
      have hout2 : lookupA results f = none := by rw [hf]; exact hout
      have h2 : lookupA [(key, [])] f = some ([] : List (String × Nat)) := by
        rw [hf]
        simp [lookupA]
      rw [lookupA_append_none _ hout2, h2, hout2]
      simp only [Option.map_some]
      show innerRead (bumpInner [] value) v = 0 + if f = key ∧ v = value then 1 else 0
      rw [bumpInner_read]
      show 0 + (if v = value then 1 else 0) = 0 + if f = key ∧ v = value then 1 else 0
      by_cases hv : v = value
      · rw [if_pos hv, if_pos ⟨hf, hv⟩]
      · rw [if_neg hv, if_neg (fun hh => hv hh.2)]
    · rw [if_neg hout]
      match hres : lookupA results f with
      | none =>
        rw [hf] at hres
        rw [hres] at hout
        simp at hout
      | some inner =>
        simp only [Option.map_some]
        show innerRead (bumpInner inner value) v =
          innerRead inner v + if f = key ∧ v = value then 1 else 0
        rw [bumpInner_read]
        by_cases hv : v = value
        · rw [if_pos hv, if_pos ⟨hf, hv⟩]
        · rw [if_neg hv, if_neg (fun hh => hv hh.2)]
  · have hfv : ¬ (f = key ∧ v = value) := fun h => hf h.1
    rw [if_neg hf, if_neg hfv]
    by_cases hout : (lookupA results key).isNone
    · rw [if_pos hout]
      match hres : lookupA results f with
      | none =>
        have hkf : ¬ key = f := fun h => hf h.symm
        rw [lookupA_append_none _ hres]
        simp [lookupA, hkf]
      | some inner =>
        rw [lookupA_append_some _ hres]
        simp
    · rw [if_neg hout]
      simp

/-- Folding `bump` over a flat list of (key, value) pairs adds the pair
count to every tally read. -/
theorem tallyCount_foldl (ps : List (String × String)) (acc : Summary) (f v : String) :
    tallyCount (ps.foldl (fun r kv => bump r kv.1 kv.2) acc) f v =
      tallyCount acc f v + ps.count (f, v) := by
  induction ps generalizing acc with
  | nil => simp
  | cons kv rest ih =>
    rw [List.foldl_cons, ih, tallyCount_bump]
    simp only [List.count_cons, beq_iff_eq]
    have hiff : (kv = (f, v)) ↔ (f = kv.1 ∧ v = kv.2) := by
      constructor
      · intro hh
        subst hh
        exact ⟨rfl, rfl⟩
      · intro hh
        rw [hh.1, hh.2]
    by_cases h : f = kv.1 ∧ v = kv.2
    · rw [if_pos h, if_pos (hiff.mpr h)]
      omega
    · rw [if_neg h, if_neg (fun hh => h (hiff.mp hh))]
      omega

/-- `create_summary` equals the flat fold of `bump` over all pairs. -/
theorem create_summary_eq_foldl (data : List (List Line)) :
    create_summary data =
      (data.flatten.flatten.foldl (fun r kv => bump r kv.1 kv.2) []) := by
  unfold create_summary
  rw [List.foldl_flatten, List.foldl_flatten]

/-- The tally read of `create_summary` counts (field, value) pair
occurrences across all lines. -/
theorem tallyCount_create_summary (data : List (List Line)) (f v : String) :
    tallyCount (create_summary data) f v = data.flatten.flatten.count (f, v) := by
  rw [create_summary_eq_foldl, tallyCount_foldl]
  simp [tallyCount, lookupA]

/-! ## Lemmas about the merge loop -/

/-- A key untouched by `merge_one`'s in-place record update keeps its
binding. -/
theorem lookupA_merge_map_ne (store : Store) (source_id qid payload q : String)
    (h : ¬ q = qid) :
    lookupA (store.map (fun p =>
      if p.1 = qid then
        (p.1, ⟨p.2.fields, p.2.sources, p.2.signed_by ++ [source_id], payload⟩)
      else p)) q = lookupA store q := by
  rw [lookupA_map_if store qid q
    (fun r => (⟨r.fields, r.sources, r.signed_by ++ [source_id], payload⟩ : QueryRecord))]
  rw [if_neg h]

/-- Splitting the merge loop across a batch concatenation. -/
theorem merge_run_append (verify : String → Bool) (source_id : String) (store : Store)
    (l₁ l₂ : List (String × String)) :
    merge_run verify source_id store (l₁ ++ l₂) =
      match merge_run verify source_id store l₁ with
      | (s, none) => merge_run verify source_id s l₂
      | (s, some e) => (s, some e) := by
  induction l₁ generalizing store with
  | nil => simp [merge_run]
  | cons e rest ih =>
    simp only [List.cons_append, merge_run]
    cases merge_one verify source_id store e with
    | ok s₁ => exact ih s₁
    | error err => rfl

end Reggy

namespace Reggy

/-! ## Claims -/

/-- C1: in the merge loop of `QueryHandler.handle`, a record is touched
only through entries whose verification succeeded: an entry that fails
verification never has its query_id's record altered (given the reply
batch is a dict, i.e. its keys are distinct), and any record that
changed at all changed because of some entry that verified. -/
theorem merge_run_verified_only (verify : String → Bool) (source_id : String)
    (store : Store) (reply : List (String × String))
    (hnd : (reply.map Prod.fst).Nodup) :
    (∀ q p, (q, p) ∈ reply → verify p = false →
        lookupA (merge_run verify source_id store reply).1 q = lookupA store q) ∧
    (∀ q, lookupA (merge_run verify source_id store reply).1 q ≠ lookupA store q →
        ∃ p, (q, p) ∈ reply ∧ verify p = true) := by
  induction reply generalizing store with
  | nil =>
    refine ⟨fun q p hmem => absurd hmem (List.not_mem_nil _), fun q hne => absurd rfl hne⟩
  | cons e rest ih =>
    rw [List.map_cons, List.nodup_cons] at hnd
    obtain ⟨hhd, hnd'⟩ := hnd
    by_cases hv : verify e.2
    · match hlk : lookupA store e.1 with
      | none =>
        have hrun : merge_run verify source_id store (e :: rest) =
            (store, some .unknownQuery) := by
          simp [merge_run, merge_one, hv, hlk]
        rw [hrun]
        exact ⟨fun q p hmem hvf => rfl, fun q hne => absurd rfl hne⟩
      | some rec =>
        have hone : merge_one verify source_id store e =
            .ok (store.map (fun p =>
              if p.1 = e.1 then
                (p.1, ⟨p.2.fields, p.2.sources, p.2.signed_by ++ [source_id], e.2⟩)
              else p)) := by
          simp [merge_one, hv, hlk]
        have hrun : merge_run verify source_id store (e :: rest) =
            merge_run verify source_id (store.map (fun p =>
              if p.1 = e.1 then
                (p.1, ⟨p.2.fields, p.2.sources, p.2.signed_by ++ [source_id], e.2⟩)
              else p)) rest := by
          simp [merge_run, hone]
        obtain ⟨ih1, ih2⟩ := ih (store.map (fun p =>
          if p.1 = e.1 then
            (p.1, ⟨p.2.fields, p.2.sources, p.2.signed_by ++ [source_id], e.2⟩)
          else p)) hnd'
        constructor
        · intro q p hmem hvf
          rcases List.mem_cons.mp hmem with heq | hrest
          · exfalso
            have hp : p = e.2 := congrArg Prod.snd heq
            rw [hp, hv] at hvf
            exact absurd hvf (by decide)
          · have hq : ¬ q = e.1 := by
              intro hq
              exact hhd (hq ▸ List.mem_map_of_mem Prod.fst hrest)
            rw [hrun, ih1 q p hrest hvf, lookupA_merge_map_ne _ _ _ _ _ hq]
        · intro q hne
          by_cases hq : q = e.1
          · refine ⟨e.2, ?_, hv⟩
            rw [hq]
            exact List.mem_cons_self e rest
          · rw [hrun] at hne
            have hne' : lookupA (merge_run verify source_id (store.map (fun p =>
                if p.1 = e.1 then
                  (p.1, ⟨p.2.fields, p.2.sources, p.2.signed_by ++ [source_id], e.2⟩)
                else p)) rest).1 q ≠
                lookupA (store.map (fun p =>
                  if p.1 = e.1 then
                    (p.1, ⟨p.2.fields, p.2.sources, p.2.signed_by ++ [source_id], e.2⟩)
                  else p)) q := by
              rw [lookupA_merge_map_ne _ _ _ _ _ hq]
              exact hne
            obtain ⟨p, hp, hvp⟩ := ih2 q hne'
            exact ⟨p, List.mem_cons_of_mem e hp, hvp⟩
    · have hrun : merge_run verify source_id store (e :: rest) =
          (store, some .signatureInvalid) := by
        simp [merge_run, merge_one, hv]
      rw [hrun]
      exact ⟨fun q p hmem hvf => rfl, fun q hne => absurd rfl hne⟩

/-- Witness for C1 at a concrete batch: the failing entry's record is
untouched. -/
theorem merge_run_verified_only_witness :
    lookupA (merge_run (fun s => s == "ok") "hunt"
        [("q1", ⟨"f1", ["hunt"], [], "base"⟩)] [("q1", "bad")]).1 "q1" =
      lookupA [("q1", (⟨"f1", ["hunt"], [], "base"⟩ : QueryRecord))] "q1" :=
  (merge_run_verified_only (fun s => s == "ok") "hunt"
    [("q1", ⟨"f1", ["hunt"], [], "base"⟩)] [("q1", "bad")] (by decide)).1
    "q1" "bad" (by decide) (by decide)

/-- C2 counterexample: with a batch whose first entry verifies and whose
second does not, the loop raises `SignatureInvalid` but the first
entry's merge has already been applied, so the store is NOT left
unchanged from its state at the start of batch processing. -/
theorem merge_run_partial_merge_cex :
    merge_run (fun s => s == "ok") "hunt"
        [("q1", ⟨"f1", ["hunt"], [], "b1"⟩), ("q2", ⟨"f2", ["hunt"], [], "b2"⟩)]
        [("q1", "ok"), ("q2", "bad")] =
      ([("q1", ⟨"f1", ["hunt"], ["hunt"], "ok"⟩), ("q2", ⟨"f2", ["hunt"], [], "b2"⟩)],
        some .signatureInvalid) ∧
    ([("q1", ⟨"f1", ["hunt"], ["hunt"], "ok"⟩), ("q2", ⟨"f2", ["hunt"], [], "b2"⟩)] : Store) ≠
      [("q1", ⟨"f1", ["hunt"], [], "b1"⟩), ("q2", ⟨"f2", ["hunt"], [], "b2"⟩)] := by
  constructor
  · rfl
  · decide

/-- C2 amended: a failed verification aborts the batch with
`SignatureInvalid` at the first failing entry, leaving the merges of the
verified prefix applied (the store is the one reached after that prefix,
not the one from the start of batch processing). -/
theorem merge_run_abort_keeps_merged (verify : String → Bool) (source_id : String)
    (store : Store) (pre : List (String × String)) (q p : String)
    (rest : List (String × String))
    (hpre : (merge_run verify source_id store pre).2 = none)
    (hbad : verify p = false) :
    merge_run verify source_id store (pre ++ (q, p) :: rest) =
      ((merge_run verify source_id store pre).1, some .signatureInvalid) := by
  rw [merge_run_append]
  match hres : merge_run verify source_id store pre with
  | (s₁, some e) => rw [hres] at hpre; simp at hpre
  | (s₁, none) =>
    simp only [merge_run, merge_one, hbad]
    rfl

/-- Witness for C2's amended theorem at a concrete batch. -/
theorem merge_run_abort_keeps_merged_witness :
    merge_run (fun s => s == "ok") "hunt"
        [("q1", ⟨"f1", ["hunt"], [], "b1"⟩), ("q2", ⟨"f2", ["hunt"], [], "b2"⟩)]
        ([("q1", "ok")] ++ ("q2", "bad") :: []) =
      ((merge_run (fun s => s == "ok") "hunt"
          [("q1", ⟨"f1", ["hunt"], [], "b1"⟩), ("q2", ⟨"f2", ["hunt"], [], "b2"⟩)]
          [("q1", "ok")]).1,
        some .signatureInvalid) :=
  merge_run_abort_keeps_merged (fun s => s == "ok") "hunt"
    [("q1", ⟨"f1", ["hunt"], [], "b1"⟩), ("q2", ⟨"f2", ["hunt"], [], "b2"⟩)]
    [("q1", "ok")] "q2" "bad" [] (by decide) (by decide)

/-- C5: merging one returned signature requires the query_id to be in
the store — an absent id raises the `UnknownQuery` rejection — and for a
present id it appends the requesting registry's id to `signed_by` and
overwrites `signed` with the returned payload. -/
theorem merge_one_spec (verify : String → Bool) (source_id : String) (store : Store)
    (qid payload : String) (hver : verify payload = true) :
    (lookupA store qid = none →
      merge_one verify source_id store (qid, payload) = .error .unknownQuery) ∧
    (∀ rec, lookupA store qid = some rec →
      ∃ s₁, merge_one verify source_id store (qid, payload) = .ok s₁ ∧
        lookupA s₁ qid =
          some ⟨rec.fields, rec.sources, rec.signed_by ++ [source_id], payload⟩) := by
  constructor
  · intro hnone
    simp [merge_one, hver, hnone]
  · intro rec hsome
    refine ⟨store.map (fun p =>
      if p.1 = qid then
        (p.1, ⟨p.2.fields, p.2.sources, p.2.signed_by ++ [source_id], payload⟩)
      else p), ?_, ?_⟩
    · simp [merge_one, hver, hsome]
    · rw [lookupA_map_if store qid qid
        (fun r => (⟨r.fields, r.sources, r.signed_by ++ [source_id], payload⟩ : QueryRecord))]
      rw [if_pos rfl, hsome]
      rfl

/-- Witness for C5 at a concrete store and entry. -/
theorem merge_one_spec_witness :
    ∃ s₁, merge_one (fun s => s == "ok") "hunt"
        [("q1", ⟨"f1", ["hunt"], [], "base"⟩)] ("q1", "ok") = .ok s₁ ∧
      lookupA s₁ "q1" = some ⟨"f1", ["hunt"], [] ++ ["hunt"], "ok"⟩ :=
  (merge_one_spec (fun s => s == "ok") "hunt"
    [("q1", ⟨"f1", ["hunt"], [], "base"⟩)] "q1" "ok" (by decide)).2
    ⟨"f1", ["hunt"], [], "base"⟩ (by decide)

/-- C10: `fetch_queries` never reads its `registry_id` argument — the
fetch-and-upsert step produces the same store and error for any two
requesting registries, on every feed and initial store. -/
theorem fetch_run_registry_independent (sign dumps : String → String)
    (r₁ r₂ : String) (store : Store) (feed : List FeedQuery) :
    fetch_run sign dumps r₁ store feed = fetch_run sign dumps r₂ store feed := by
  induction feed generalizing store with
  | nil => rfl
  | cons q rest ih =>
    simp only [fetch_run]
    cases upsert sign dumps store q with
    | ok s₁ => exact ih s₁
    | error e => rfl

/-- C3: for a feed entry without a status, `fetch_queries` creates
exactly one record — `signed_by = []`, `signed` the baseline signature
over the serialized fields — when the id is unseen, leaves the store
untouched when the id is already present, and is idempotent: upserting
the result again returns it unchanged. -/
theorem upsert_unsigned (sign dumps : String → String) (store : Store) (q : FeedQuery)
    (hst : q.status = false) :
    (lookupA store q.id = none →
      upsert sign dumps store q =
        .ok (store ++ [(q.id, ⟨q.fields, q.sources, [], sign (dumps q.fields)⟩)])) ∧
    (∀ rec, lookupA store q.id = some rec → upsert sign dumps store q = .ok store) ∧
    (∀ s₁, upsert sign dumps store q = .ok s₁ → upsert sign dumps s₁ q = .ok s₁) := by
  refine ⟨?_, ?_, ?_⟩
  · intro hnone
    simp [upsert, hst, hnone]
  · intro rec hsome
    simp [upsert, hst, hsome]
  · intro s₁ hok
    match hres : lookupA store q.id with
    | none =>
      rw [(by simp [upsert, hst, hres] :
        upsert sign dumps store q =
          .ok (store ++ [(q.id, ⟨q.fields, q.sources, [], sign (dumps q.fields)⟩)]))] at hok
      have hs₁ : s₁ = store ++ [(q.id, ⟨q.fields, q.sources, [], sign (dumps q.fields)⟩)] :=
        (Except.ok.inj hok).symm
      have hmem : lookupA s₁ q.id =
          some ⟨q.fields, q.sources, [], sign (dumps q.fields)⟩ := by
        rw [hs₁, lookupA_append_none _ hres]
        simp [lookupA]
      simp [upsert, hst, hmem]
    | some rec =>
      rw [(by simp [upsert, hst, hres] : upsert sign dumps store q = .ok store)] at hok
      have hs₁ : s₁ = store := (Except.ok.inj hok).symm
      rw [hs₁]
      simp [upsert, hst, hres]

/-- Witness for C3 at a fresh id on the empty store. -/
theorem upsert_unsigned_witness :
    upsert (fun s => s ++ "-sig") (fun s => s) ([] : Store) ⟨"q1", false, "f1", ["hunt"]⟩ =
      .ok ([] ++ [("q1", ⟨"f1", ["hunt"], [], (fun s => s ++ "-sig") ((fun s => s) "f1")⟩)]) :=
  (upsert_unsigned (fun s => s ++ "-sig") (fun s => s) [] ⟨"q1", false, "f1", ["hunt"]⟩
    rfl).1 rfl

/-- C4 counterexample: a status-marked feed entry whose id is absent
does not purge silently — `del signed_query_store[query_id]` raises
`KeyError` on the empty store, so the claimed no-op behaviour is false. -/
theorem upsert_status_absent_cex :
    upsert (fun s => s) (fun s => s) ([] : Store) ⟨"q1", true, "f1", []⟩ =
      .error .keyError ∧
    (Except.error .keyError : Except HandlerError Store) ≠ .ok ([] : Store) := by
  exact ⟨rfl, fun h => Except.noConfusion h⟩

/-- C4 amended: a status-marked feed entry removes the matching record
regardless of its signing progress, but when no record with that id is
present the deletion raises a `KeyError` (aborting the handler) instead
of being a silent no-op. -/
theorem upsert_status (sign dumps : String → String) (store : Store) (q : FeedQuery)
    (hst : q.status = true) :
    (∀ rec, lookupA store q.id = some rec →
      upsert sign dumps store q = .ok (store.filter (fun p => p.1 ≠ q.id))) ∧
    (lookupA store q.id = none → upsert sign dumps store q = .error .keyError) := by
  constructor
  · intro rec hsome
    simp [upsert, hst, hsome]
  · intro hnone
    simp [upsert, hst, hnone]

/-- Witness for C4's amended theorem: a mid-signing record is purged. -/
theorem upsert_status_witness :
    upsert (fun s => s) (fun s => s)
        [("q1", ⟨"f1", ["hunt"], ["hunt"], "sig"⟩)] ⟨"q1", true, "f1", ["hunt"]⟩ =
      .ok (List.filter (fun p => p.1 ≠ "q1") [("q1", ⟨"f1", ["hunt"], ["hunt"], "sig"⟩)]) :=
  (upsert_status (fun s => s) (fun s => s)
    [("q1", ⟨"f1", ["hunt"], ["hunt"], "sig"⟩)] ⟨"q1", true, "f1", ["hunt"]⟩ rfl).1
    ⟨"f1", ["hunt"], ["hunt"], "sig"⟩ (by decide)

/-- C6: `filter_queries` returns exactly the live records whose
`sources` contain the registry — every returned record lists the
registry in its sources, and every stored record listing it is
returned. -/
theorem filter_queries_spec (registry_id : String) (store : Store) (rec : QueryRecord) :
    rec ∈ filter_queries registry_id store ↔
      (∃ qid, (qid, rec) ∈ store) ∧ registry_id ∈ rec.sources := by
  unfold filter_queries
  rw [List.mem_map]
  constructor
  · rintro ⟨p, hp, rfl⟩
    rw [List.mem_filter] at hp
    obtain ⟨hmem, hcont⟩ := hp
    exact ⟨⟨p.1, hmem⟩, (List.elem_iff).mp hcont⟩
  · rintro ⟨⟨qid, hmem⟩, hsrc⟩
    refine ⟨(qid, rec), ?_, rfl⟩
    rw [List.mem_filter]
    exact ⟨hmem, (List.elem_iff).mpr hsrc⟩

/-- C7: a request whose `source_id` is outside the allow-list triggers
no feed fetch, no store mutation and no response: `handle` returns the
store as it was, with nothing sent and no error raised. -/
theorem handle_unauthorized (sign dumps : String → String) (verify : String → Bool)
    (recipients : String → Bool) (store : Store) (feed : List FeedQuery)
    (source_id : String) (reply : List (String × String))
    (h : valid_sources.contains source_id = false) :
    handle sign dumps verify recipients store feed source_id reply =
      ⟨store, none, none⟩ := by
  unfold handle
  rw [h]
  simp

/-- Witness for C7 with the unauthorized source id "web". -/
theorem handle_unauthorized_witness :
    handle (fun s => s) (fun s => s) (fun _ => true) (fun _ => true)
        [("q1", ⟨"f1", ["hunt"], [], "sig"⟩)] [⟨"q2", false, "f2", ["hunt"]⟩]
        "web" [("q1", "sig")] =
      ⟨[("q1", ⟨"f1", ["hunt"], [], "sig"⟩)], none, none⟩ :=
  handle_unauthorized (fun s => s) (fun s => s) (fun _ => true) (fun _ => true)
    [("q1", ⟨"f1", ["hunt"], [], "sig"⟩)] [⟨"q2", false, "f2", ["hunt"]⟩]
    "web" [("q1", "sig")] (by decide)

/-- `bumpInner` preserves positivity of all stored counts. -/
theorem bumpInner_pos (inner : List (String × Nat)) (value : String)
    (h : ∀ c ∈ inner, c.2 ≠ 0) :
    ∀ c ∈ bumpInner inner value, c.2 ≠ 0 := by
  intro c hc
  unfold bumpInner at hc
  rw [List.mem_map] at hc
  obtain ⟨q, hq, rfl⟩ := hc
  by_cases hin : (lookupA inner value).isNone
  · rw [if_pos hin] at hq
    rcases List.mem_append.mp hq with hq | hq
    · by_cases hqv : q.1 = value
      · simp [hqv]
      · simp [hqv]
        exact h q hq
    · have hq0 : q = (value, 0) := List.mem_singleton.mp hq
      rw [hq0]
      simp
  · rw [if_neg hin] at hq
    by_cases hqv : q.1 = value
    · simp [hqv]
    · simp [hqv]
      exact h q hq

/-- `bump` preserves positivity of all stored counts. -/
theorem bump_pos (results : Summary) (key value : String)
    (h : ∀ p ∈ results, ∀ c ∈ p.2, c.2 ≠ 0) :
    ∀ p ∈ bump results key value, ∀ c ∈ p.2, c.2 ≠ 0 := by
  intro p hp
  unfold bump at hp
  rw [List.mem_map] at hp
  obtain ⟨q, hq, rfl⟩ := hp
  have hbase : ∀ c ∈ q.2, c.2 ≠ 0 := by
    by_cases hout : (lookupA results key).isNone
    · rw [if_pos hout] at hq
      rcases List.mem_append.mp hq with hq | hq
      · exact h q hq
      · have hq0 : q = (key, []) := List.mem_singleton.mp hq
        rw [hq0]
        intro c hc
        exact absurd hc (List.not_mem_nil c)
    · rw [if_neg hout] at hq
      exact h q hq
  by_cases hqk : q.1 = key
  · simp only [hqk, if_pos rfl]
    exact bumpInner_pos q.2 value hbase
  · simp only [if_neg hqk]
    exact hbase

/-- The fold of `bump` over pairs preserves positivity. -/
theorem foldl_bump_pos (ps : List (String × String)) (acc : Summary)
    (h : ∀ p ∈ acc, ∀ c ∈ p.2, c.2 ≠ 0) :
    ∀ p ∈ ps.foldl (fun r kv => bump r kv.1 kv.2) acc, ∀ c ∈ p.2, c.2 ≠ 0 := by
  induction ps generalizing acc with
  | nil => exact h
  | cons kv rest ih =>
    rw [List.foldl_cons]
    exact ih (bump acc kv.1 kv.2) (bump_pos acc kv.1 kv.2 h)

/-- Every count stored by `create_summary` is positive. -/
theorem create_summary_pos (data : List (List Line)) :
    ∀ p ∈ create_summary data, ∀ c ∈ p.2, c.2 ≠ 0 := by
  rw [create_summary_eq_foldl]
  exact foldl_bump_pos _ [] (fun p hp => absurd hp (List.not_mem_nil p))

/-- In a line whose keys are distinct, a (field, value) pair occurs at
most once, so its count is its membership indicator. -/
theorem count_line_of_nodup (l : Line) (f v : String)
    (h : (l.map Prod.fst).Nodup) :
    l.count (f, v) = if (f, v) ∈ l then 1 else 0 := by
  induction l with
  | nil => simp
  | cons a rest ih =>
    rw [List.map_cons, List.nodup_cons] at h
    obtain ⟨hhd, hnd⟩ := h
    by_cases ha : a = (f, v)
    · have hnot : (f, v) ∉ rest := by
        intro hmem
        apply hhd
        rw [ha]
        exact List.mem_map_of_mem Prod.fst hmem
      rw [List.count_cons, List.count_eq_zero.mpr hnot, ha]
      simp
    · have hane : ¬ (f, v) = a := fun hh => ha hh.symm
      have hmem : ((f, v) ∈ a :: rest) ↔ ((f, v) ∈ rest) := by
        rw [List.mem_cons]
        exact or_iff_right hane
      have hbeq : (a == (f, v)) = false := by
        rw [beq_eq_false_iff_ne]
        exact ha
      rw [List.count_cons, ih hnd, hbeq]
      simp [hmem]

/-- Summing per-line pair counts over lines with distinct keys counts
the lines containing the pair. -/
theorem sum_count_eq_countP (lines : List Line) (f v : String)
    (h : ∀ l ∈ lines, (l.map Prod.fst).Nodup) :
    (lines.map (List.count (f, v))).sum =
      lines.countP (fun l => decide ((f, v) ∈ l)) := by
  induction lines with
  | nil => rfl
  | cons l rest ih =>
    rw [List.map_cons, List.sum_cons, List.countP_cons,
      ih (fun l hl => h l (List.mem_cons_of_mem _ hl)),
      count_line_of_nodup l f v (h l (List.mem_cons_self l rest))]
    by_cases hm : (f, v) ∈ l
    · simp [hm]
      omega
    · simp [hm]

end Reggy

namespace Reggy

/-- C8: the aggregation summary tallies (field, value) occurrences over
all decrypted lines — for lines with distinct keys the tally read at
(f, v) is the number of lines mapping f to v — every stored count is
positive (no zero entries), and the spec's concrete scenario
`[[{sex:F},{sex:F}],[{sex:M}]]` yields `{sex: {F: 2, M: 1}}`. -/
theorem create_summary_counts (data : List (List Line))
    (hnd : ∀ l ∈ data.flatten, (l.map Prod.fst).Nodup) :
    (∀ f v, tallyCount (create_summary data) f v =
        data.flatten.countP (fun l => decide ((f, v) ∈ l))) ∧
    (∀ p ∈ create_summary data, ∀ c ∈ p.2, c.2 ≠ 0) ∧
    create_summary [[[("sex", "F")], [("sex", "F")]], [[("sex", "M")]]] =
      [("sex", [("F", 2), ("M", 1)])] := by
  refine ⟨?_, create_summary_pos data, by decide⟩
  intro f v
  rw [tallyCount_create_summary, List.count_flatten, sum_count_eq_countP _ _ _ hnd]

/-- Witness for C8 on the spec's concrete aggregation scenario. -/
theorem create_summary_counts_witness :
    tallyCount (create_summary [[[("sex", "F")], [("sex", "F")]], [[("sex", "M")]]])
        "sex" "F" =
      ([[[("sex", "F")], [("sex", "F")]], [[("sex", "M")]]] : List (List Line)).flatten.countP
        (fun l => decide (("sex", "F") ∈ l)) :=
  (create_summary_counts [[[("sex", "F")], [("sex", "F")]], [[("sex", "M")]]]
    (by decide)).1 "sex" "F"

/-- C9: the tally is order-independent — permuting the outer sequence of
individuals and each individual's inner sequence of lines leaves every
count of the resulting summary unchanged. -/
theorem create_summary_perm_invariant (d₁ dmid d₂ : List (List Line))
    (h₁ : d₁.Perm dmid) (h₂ : List.Forall₂ List.Perm dmid d₂) (f v : String) :
    tallyCount (create_summary d₁) f v = tallyCount (create_summary d₂) f v := by
  rw [tallyCount_create_summary, tallyCount_create_summary]
  have hp : d₁.flatten.Perm d₂.flatten :=
    (h₁.flatten).trans (List.Perm.flatten_congr h₂)
  exact (hp.flatten).countP_eq _

/-- Witness for C9: swapping the two individuals and reversing one
individual's lines preserves the count. -/
theorem create_summary_perm_invariant_witness :
    tallyCount (create_summary [[[("sex", "F")], [("sex", "M")]], [[("sex", "F")]]])
        "sex" "F" =
      tallyCount (create_summary [[[("sex", "F")]], [[("sex", "M")], [("sex", "F")]]])
        "sex" "F" :=
  create_summary_perm_invariant
    [[[("sex", "F")], [("sex", "M")]], [[("sex", "F")]]]
    [[[("sex", "F")]], [[("sex", "F")], [("sex", "M")]]]
    [[[("sex", "F")]], [[("sex", "M")], [("sex", "F")]]]
    (by decide) (by decide) "sex" "F"

end Reggy
